import Mathlib

/-!
Shallow embedding of the search-citations edge function
(src/supabase/functions/search-citations/index.ts): the aggregation pipeline
(collect, deduplicate, rank) and the request handler around it.

Strings are modelled as lists of characters, JavaScript floating point by the
real numbers, and the wall-clock current year by an explicit integer
parameter.  External effects (provider transports, the query expansion call,
the history store) enter as explicit inputs; the handler additionally reports
which pipeline stages it performed.
-/

namespace CitationCompass

abbrev Str := List Char

/-- Model of String.prototype.toLowerCase, character by character. -/
def lowerStr (s : Str) : Str := s.map Char.toLower

/-- Model of String.prototype.trim: strip leading and trailing whitespace. -/
def trimStr (s : Str) : Str :=
  ((s.dropWhile Char.isWhitespace).reverse.dropWhile Char.isWhitespace).reverse

/-- Model of String.prototype.includes: the needle occurs contiguously in the
haystack. -/
def containsSub (needle haystack : Str) : Bool := decide (needle <:+: haystack)

/-- Helper of splitWs: acc holds the (reversed) characters of the chunk being
read. -/
def splitWsAux : Str → Str → List Str
  | acc, [] => [acc.reverse]
  | acc, c :: cs =>
    if c.isWhitespace then acc.reverse :: splitWsAux [] cs
    else splitWsAux (c :: acc) cs

/-- Model of split on whitespace.  The source splits with a whitespace-run
regular expression; runs of whitespace produce empty chunks here where the
regular expression produces none, and the length filter in queryTermsOf
removes them either way. -/
def splitWs (s : Str) : List Str := splitWsAux [] s

/-- Query terms of rankResults: the lower-cased query split on whitespace,
keeping only the terms of length greater than 2. -/
def queryTermsOf (queryLower : Str) : List Str :=
  (splitWs queryLower).filter (fun term => 2 < term.length)

/-- The common record shape every provider adapter produces (NormalizedCitation
of the specification). -/
structure NormalizedCitation where
  title : Str
  authors : Str
  year : Option Int
  abstract : Str
  url : Option Str
  source : Str
  citationCount : Nat
  doi : Option Str
deriving DecidableEq

/-- A NormalizedCitation together with the relevanceScore the ranking step
spreads onto it. -/
structure ScoredCitation extends NormalizedCitation where
  relevanceScore : ℝ

def semanticScholarName : Str := "Semantic Scholar".data

/-- Identity key of deduplicateResults: result.doi or, when the DOI is a falsy
JavaScript value (absent or the empty string), result.title lower-cased and
trimmed. -/
def dedupKey (r : NormalizedCitation) : Str :=
  match r.doi with
  | some d => if d = [] then trimStr (lowerStr r.title) else d
  | none => trimStr (lowerStr r.title)

/-- Loop of deduplicateResults: seen is the set of keys already visited, a
record is kept exactly when its key is fresh. -/
def dedupAux (seen : List Str) : List NormalizedCitation → List NormalizedCitation
  | [] => []
  | r :: rest =>
    if dedupKey r ∈ seen then dedupAux seen rest
    else r :: dedupAux (dedupKey r :: seen) rest

def deduplicateResults (results : List NormalizedCitation) : List NormalizedCitation :=
  dedupAux [] results

/-- The visited-key set of the deduplication loop after it has processed a list
of records. -/
def seenAfter (seen : List Str) : List NormalizedCitation → List Str
  | [] => seen
  | r :: rest =>
    if dedupKey r ∈ seen then seenAfter seen rest
    else seenAfter (dedupKey r :: seen) rest

/-- Score of one record in rankResults, accumulated in the order the source
adds the bonuses.  The year bonus tests JavaScript truthiness of the year, so
a year equal to 0 earns no bonus. -/
noncomputable def recordScore (currentYear : Int) (queryLower : Str)
    (queryTerms : List Str) (result : NormalizedCitation) : ℝ :=
  let titleLower := lowerStr result.title
  let abstractLower := lowerStr result.abstract
  let s1 : ℝ := if containsSub queryLower titleLower then 0 + 10 else 0
  let s2 := queryTerms.foldl (fun s term => if containsSub term titleLower then s + 3 else s) s1
  let s3 := if containsSub queryLower abstractLower then s2 + 5 else s2
  let s4 := queryTerms.foldl (fun s term => if containsSub term abstractLower then s + 1 else s) s3
  let s5 := s4 + Real.log (result.citationCount + 1) * 0.5
  let s6 :=
    match result.year with
    | some y => if y ≠ 0 ∧ currentYear - y ≤ 5 then s5 + 3 else s5
    | none => s5
  if result.source = semanticScholarName then s6 + 0.5 else s6

/-- Comparator of the final sort (compare on relevanceScore, larger first), as
the Boolean order used by a stable merge sort: scoreLE a b holds when a may
stay before b. -/
noncomputable def scoreLE (a b : ScoredCitation) : Bool :=
  decide (b.relevanceScore ≤ a.relevanceScore)

/-- rankResults: score every record with the original query, then sort by
descending relevanceScore with a stable sort. -/
noncomputable def rankResults (currentYear : Int) (results : List NormalizedCitation)
    (originalQuery : Str) : List ScoredCitation :=
  let queryLower := lowerStr originalQuery
  let queryTerms := queryTermsOf queryLower
  (results.map fun result =>
    ScoredCitation.mk result (recordScore currentYear queryLower queryTerms result)).mergeSort
    scoreLE

/-- Outcome of one adapter promise as seen through Promise.allSettled. -/
inductive AdapterOutcome where
  | fulfilled (value : List NormalizedCitation)
  | rejected

/-- Records an adapter outcome contributes to allResults: a fulfilled value is
spread in (an array is truthy even when empty), a rejection contributes
nothing. -/
def AdapterOutcome.collected : AdapterOutcome → List NormalizedCitation
  | .fulfilled v => v
  | .rejected => []

/-- allResults of the handler: Semantic Scholar records first, CrossRef records
second. -/
def collectResults (semanticResults crossrefResults : AdapterOutcome) :
    List NormalizedCitation :=
  semanticResults.collected ++ crossrefResults.collected

/-- The three response shapes of the handler that the modelled pipeline can
produce (the 500 catch-all wraps exceptions outside the model). -/
inductive HandlerResponse where
  | badRequest
  | notFound (query expandedQuery : Str)
  | ok (query expandedQuery : Str) (results : List ScoredCitation) (totalFound : Nat)

/-- Which pipeline stages a handler run performed. -/
structure PipelineEffects where
  expansionAttempted : Bool
  providersSearched : Bool
  dedupedAndRanked : Bool
  historyWritten : Bool
deriving DecidableEq

/-- expandedQuery of the handler: the expansion result when an API key exists
and the expansion call succeeded, otherwise the original query. -/
def expandedQueryOf (hasLovableKey : Bool) (expansionOutcome : Option Str)
    (query : Str) : Str :=
  if hasLovableKey then expansionOutcome.getD query else query

/-- The request handler: validate the query, expand, fan out, and either
report notFound (all adapters failed or empty) or deduplicate, rank and
answer with the top 10. -/
noncomputable def handleRequest (currentYear : Int) (query : Option Str)
    (userId : Option Str) (hasLovableKey : Bool) (expansionOutcome : Option Str)
    (semanticResults crossrefResults : AdapterOutcome)
    (historyStoreConfigured : Bool) : HandlerResponse × PipelineEffects :=
  match query with
  | none => (HandlerResponse.badRequest, PipelineEffects.mk false false false false)
  | some q =>
    if q = [] then (HandlerResponse.badRequest, PipelineEffects.mk false false false false)
    else
      let expandedQuery := expandedQueryOf hasLovableKey expansionOutcome q
      let allResults := collectResults semanticResults crossrefResults
      if allResults = [] then
        (HandlerResponse.notFound q expandedQuery,
         PipelineEffects.mk hasLovableKey true false false)
      else
        let uniqueResults := deduplicateResults allResults
        let rankedResults := rankResults currentYear uniqueResults q
        (HandlerResponse.ok q expandedQuery (rankedResults.take 10) rankedResults.length,
         PipelineEffects.mk hasLovableKey true true
           (userId.isSome && historyStoreConfigured))

/-- Identity key as the specification words it: the DOI if present and
non-empty, otherwise the title lower-cased with leading and trailing
whitespace trimmed. -/
def specKey (r : NormalizedCitation) : Str :=
  match r.doi with
  | some d => if d ≠ [] then d else trimStr (lowerStr r.title)
  | none => trimStr (lowerStr r.title)

/-- Deduplication as the specification words it: keep the first record of each
identity key and drop every later record whose key occurred earlier. -/
def dedupeSpec : List NormalizedCitation → List NormalizedCitation
  | [] => []
  | r :: rest => r :: dedupeSpec (rest.filter fun x => decide (specKey x ≠ specKey r))
termination_by l => l.length
decreasing_by
  simp only [List.length_cons]
  exact Nat.lt_succ_of_le (List.length_filter_le _ _)

/-- Scoring formula as the specification words it: one sum of the seven
contributions, per record. -/
noncomputable def specScore (currentYear : Int) (r : NormalizedCitation)
    (originalQuery : Str) : ℝ :=
  (if lowerStr originalQuery <:+: lowerStr r.title then (10 : ℝ) else 0)
  + 3 * ((queryTermsOf (lowerStr originalQuery)).countP
      (fun t => containsSub t (lowerStr r.title)))
  + (if lowerStr originalQuery <:+: lowerStr r.abstract then 5 else 0)
  + 1 * ((queryTermsOf (lowerStr originalQuery)).countP
      (fun t => containsSub t (lowerStr r.abstract)))
  + Real.log (r.citationCount + 1) * 0.5
  + (match r.year with
     | some y => if currentYear - y ≤ 5 then (3 : ℝ) else 0
     | none => 0)
  + (if r.source = semanticScholarName then 0.5 else 0)

/-- Score a record exactly as rankResults prepares it from the query. -/
noncomputable def scoreOf (currentYear : Int) (originalQuery : Str)
    (r : NormalizedCitation) : ℝ :=
  recordScore currentYear (lowerStr originalQuery) (queryTermsOf (lowerStr originalQuery)) r

/-- The scored but not yet sorted list rankResults builds. -/
noncomputable def scoredResults (currentYear : Int) (results : List NormalizedCitation)
    (originalQuery : Str) : List ScoredCitation :=
  results.map fun r => ScoredCitation.mk r (scoreOf currentYear originalQuery r)

/-! Concrete records used to instantiate the theorems below. -/

def recA : NormalizedCitation :=
  ⟨"Deep Learning".data, "Ann Author".data, some 2020, "An abstract".data,
    none, semanticScholarName, 3, none⟩

def recB : NormalizedCitation :=
  ⟨"deep   learning ".data, "Bob Author".data, some 2021, "Other text".data,
    none, "CrossRef".data, 5, none⟩

def recBtrim : NormalizedCitation :=
  ⟨"deep learning ".data, "Bob Author".data, some 2021, "Other text".data,
    none, "CrossRef".data, 5, none⟩

def recDoiFoo : NormalizedCitation :=
  ⟨"Foo".data, "A".data, some 2019, "No abstract available".data,
    none, semanticScholarName, 1, some "10.1/x".data⟩

def recDoiBar : NormalizedCitation :=
  ⟨"Bar".data, "B".data, some 2018, "No abstract available".data,
    none, "CrossRef".data, 2, some "10.1/x".data⟩

def recDoiBaz : NormalizedCitation :=
  ⟨"Foo".data, "C".data, some 2017, "No abstract available".data,
    none, "CrossRef".data, 0, some "10.2/y".data⟩

def cexQuery : Str := "ab".data

def cexRecord : NormalizedCitation :=
  ⟨"ab".data, "A".data, some 2024, "xyz".data, none, "CrossRef".data, 0, none⟩

def wQuery : Str := "machine learning".data

def wTitleHit : NormalizedCitation :=
  ⟨"machine learning basics".data, "A".data, some 2024, "plain words".data,
    none, "CrossRef".data, 7, none⟩

def wTitleMiss : NormalizedCitation :=
  ⟨"quantum chemistry".data, "A".data, some 2024, "plain words".data,
    none, "CrossRef".data, 7, none⟩

def ethicsQuery : Str := "machine learning ethics".data

def lowCite : NormalizedCitation :=
  ⟨"aaa".data, "A".data, some 2024, "bbb".data, none, "CrossRef".data, 0, none⟩

def highCite : NormalizedCitation :=
  ⟨"aaa".data, "A".data, some 2024, "bbb".data, none, "CrossRef".data, 1000, none⟩

def testQuery : Str := "test".data

/-- Recency bonus exactly as the source tests it: the year must be a truthy
JavaScript number (present and non-zero) and at most 5 years old. -/
noncomputable def codeYearBonus (currentYear : Int) (year : Option Int) : ℝ :=
  match year with
  | some y => if y ≠ 0 ∧ currentYear - y ≤ 5 then 3 else 0
  | none => 0

/-! Helper lemmas about the deduplication loop. -/

theorem specKey_eq_dedupKey (r : NormalizedCitation) : specKey r = dedupKey r := by
  unfold specKey dedupKey
  cases r.doi with
  | none => rfl
  | some d => by_cases h : d = [] <;> simp [h]

theorem dedupAux_sublist (seen : List Str) (rs : List NormalizedCitation) :
    (dedupAux seen rs).Sublist rs := by
  induction rs generalizing seen with
  | nil => simp [dedupAux]
  | cons r rest ih =>
    simp only [dedupAux]
    split
    · exact (ih seen).cons r
    · exact (ih _).cons₂ r

theorem dedupKey_notMem_seen {r : NormalizedCitation} (seen : List Str)
    (rs : List NormalizedCitation) :
    r ∈ dedupAux seen rs → dedupKey r ∉ seen := by
  induction rs generalizing seen with
  | nil => intro h; simp [dedupAux] at h
  | cons x rest ih =>
    intro h
    simp only [dedupAux] at h
    by_cases hk : dedupKey x ∈ seen
    · rw [if_pos hk] at h
      exact ih seen h
    · rw [if_neg hk] at h
      rcases List.mem_cons.mp h with h1 | h1
      · subst h1; exact hk
      · intro hmem
        exact ih (dedupKey x :: seen) h1 (List.mem_cons_of_mem _ hmem)

theorem exists_key_mem_dedupAux {k : Str} (seen : List Str)
    (rs : List NormalizedCitation) :
    (∃ r ∈ rs, dedupKey r = k) → k ∉ seen →
    ∃ x ∈ dedupAux seen rs, dedupKey x = k := by
  induction rs generalizing seen with
  | nil => intro hex _; simp at hex
  | cons x rest ih =>
    intro hex hns
    simp only [dedupAux]
    by_cases hk : dedupKey x ∈ seen
    · rw [if_pos hk]
      apply ih seen _ hns
      rcases hex with ⟨r, hr, hkey⟩
      rcases List.mem_cons.mp hr with h1 | h1
      · exfalso; subst h1; rw [hkey] at hk; exact hns hk
      · exact ⟨r, h1, hkey⟩
    · rw [if_neg hk]
      by_cases hx : dedupKey x = k
      · exact ⟨x, List.mem_cons_self x _, hx⟩
      · rcases hex with ⟨r, hr, hkey⟩
        rcases List.mem_cons.mp hr with h1 | h1
        · exfalso; subst h1; exact hx hkey
        · obtain ⟨y, hy, hyk⟩ := ih (dedupKey x :: seen) ⟨r, h1, hkey⟩ (by
            intro hm
            rcases List.mem_cons.mp hm with h2 | h2
            · exact hx h2.symm
            · exact hns h2)
          exact ⟨y, List.mem_cons_of_mem _ hy, hyk⟩

theorem dedupAux_append (seen : List Str) (xs ys : List NormalizedCitation) :
    dedupAux seen (xs ++ ys) = dedupAux seen xs ++ dedupAux (seenAfter seen xs) ys := by
  induction xs generalizing seen with
  | nil => simp [dedupAux, seenAfter]
  | cons x rest ih =>
    simp only [List.cons_append, dedupAux, seenAfter]
    by_cases hk : dedupKey x ∈ seen
    · rw [if_pos hk, if_pos hk, if_pos hk]
      exact ih seen
    · rw [if_neg hk, if_neg hk, if_neg hk]
      simp [ih]

theorem mem_seenAfter {k : Str} (seen : List Str) (xs : List NormalizedCitation) :
    k ∈ seenAfter seen xs ↔ k ∈ seen ∨ ∃ r ∈ xs, dedupKey r = k := by
  induction xs generalizing seen with
  | nil => simp [seenAfter]
  | cons x rest ih =>
    simp only [seenAfter]
    by_cases hk : dedupKey x ∈ seen
    · rw [if_pos hk, ih]
      constructor
      · rintro (h | ⟨r, hr, hkey⟩)
        · exact Or.inl h
        · exact Or.inr ⟨r, List.mem_cons_of_mem _ hr, hkey⟩
      · rintro (h | ⟨r, hr, hkey⟩)
        · exact Or.inl h
        · rcases List.mem_cons.mp hr with h1 | h1
          · subst h1; rw [hkey] at hk; exact Or.inl hk
          · exact Or.inr ⟨r, h1, hkey⟩
    · rw [if_neg hk, ih]
      simp only [List.mem_cons]
      constructor
      · rintro ((h | h) | ⟨r, hr, hkey⟩)
        · exact Or.inr ⟨x, Or.inl rfl, h.symm⟩
        · exact Or.inl h
        · exact Or.inr ⟨r, Or.inr hr, hkey⟩
      · rintro (h | ⟨r, (h1 | h1), hkey⟩)
        · exact Or.inl (Or.inr h)
        · subst h1; exact Or.inl (Or.inl hkey.symm)
        · exact Or.inr ⟨r, h1, hkey⟩

theorem dedupAux_eq_dedupeSpec (seen : List Str) (rs : List NormalizedCitation) :
    dedupAux seen rs = dedupeSpec (rs.filter fun r => decide (dedupKey r ∉ seen)) := by
  induction rs generalizing seen with
  | nil => simp [dedupAux, dedupeSpec]
  | cons r rest ih =>
    simp only [dedupAux]
    by_cases hk : dedupKey r ∈ seen
    · rw [if_pos hk, List.filter_cons_of_neg (by simp [hk])]
      exact ih seen
    · rw [if_neg hk, List.filter_cons_of_pos (by simp [hk])]
      rw [dedupeSpec]
      congr 1
      rw [List.filter_filter, ih (dedupKey r :: seen)]
      congr 1
      apply List.filter_congr
      intro x hx
      simp [specKey_eq_dedupKey, List.mem_cons, not_or, Bool.and_comm]

theorem deduplicateResults_eq_dedupeSpec (rs : List NormalizedCitation) :
    deduplicateResults rs = dedupeSpec rs := by
  rw [deduplicateResults, dedupAux_eq_dedupeSpec]
  congr 1
  simp

theorem deduplicateResults_ne_nil (rs : List NormalizedCitation) (h : rs ≠ []) :
    deduplicateResults rs ≠ [] := by
  cases rs with
  | nil => exact absurd rfl h
  | cons r rest => simp [deduplicateResults, dedupAux]

/-- C2: deduplicateResults is order-preserving (a sublist of its input) and
keeps a record exactly when its identity key — the DOI when present and
non-empty, otherwise the lower-cased trimmed title — has not occurred in an
earlier record: it coincides with the first-occurrence-wins specification
dedupeSpec.  In particular, of two records sharing one non-empty DOI exactly
the first is kept regardless of titles, and two records with different
non-empty DOIs are both kept even when their titles agree. -/
theorem dedupe_first_occurrence_wins :
    (∀ rs : List NormalizedCitation,
        (deduplicateResults rs).Sublist rs ∧ deduplicateResults rs = dedupeSpec rs)
    ∧ (∀ (A B : NormalizedCitation) (d : Str), d ≠ [] →
        A.doi = some d → B.doi = some d → deduplicateResults [A, B] = [A])
    ∧ (∀ (A B : NormalizedCitation) (dA dB : Str), dA ≠ [] → dB ≠ [] → dA ≠ dB →
        A.doi = some dA → B.doi = some dB → deduplicateResults [A, B] = [A, B]) := by
  refine ⟨fun rs => ⟨dedupAux_sublist [] rs, deduplicateResults_eq_dedupeSpec rs⟩, ?_, ?_⟩
  · intro A B d hd hA hB
    simp [deduplicateResults, dedupAux, dedupKey, hA, hB, hd]
  · intro A B dA dB hdA hdB hne hA hB
    simp [deduplicateResults, dedupAux, dedupKey, hA, hB, hdA, hdB, hne.symm]

/-- Witness for C2 at concrete records: two records with DOI 10.1/x but
different titles collapse to the first; records with DOIs 10.1/x and 10.2/y
and equal titles stay distinct. -/
theorem dedupe_first_occurrence_wins_witness :
    deduplicateResults [recDoiFoo, recDoiBar] = [recDoiFoo] ∧
    deduplicateResults [recDoiFoo, recDoiBaz] = [recDoiFoo, recDoiBaz] :=
  ⟨dedupe_first_occurrence_wins.2.1 recDoiFoo recDoiBar ("10.1/x".data)
      (by decide) (by decide) (by decide),
    dedupe_first_occurrence_wins.2.2 recDoiFoo recDoiBaz ("10.1/x".data) ("10.2/y".data)
      (by decide) (by decide) (by decide) (by decide) (by decide)⟩

/-- C3 counterexample: with no DOIs and the titles exactly as the claim gives
them, the identity keys are "deep learning" and "deep   learning" — the
internal run of spaces survives trimming — so deduplicateResults keeps both
records, not only the first. -/
theorem dedupe_c3_cex :
    recA.doi = none ∧ recB.doi = none ∧
    recA.title = "Deep Learning".data ∧ recB.title = "deep   learning ".data ∧
    deduplicateResults [recA, recB] = [recA, recB] ∧
    ([recA, recB] : List NormalizedCitation) ≠ [recA] := by decide

/-- C3 amended: when the second title differs from the first only by letter
case and leading or trailing whitespace (here "deep learning " with a single
internal space), the two no-DOI records share one identity key and
deduplicateResults keeps only the first. -/
theorem dedupe_c3_amended :
    recA.doi = none ∧ recBtrim.doi = none ∧
    recA.title = "Deep Learning".data ∧ recBtrim.title = "deep learning ".data ∧
    deduplicateResults [recA, recBtrim] = [recA] := by decide

/-! Helper lemmas about the scoring function. -/

theorem foldl_if_add (p : Str → Bool) (c : ℝ) (ts : List Str) (a : ℝ) :
    ts.foldl (fun s term => if p term then s + c else s) a = a + c * ts.countP p := by
  induction ts generalizing a with
  | nil => simp
  | cons t ts ih =>
    simp only [List.foldl_cons, List.countP_cons]
    by_cases hp : p t
    · rw [if_pos hp, ih]
      simp only [hp, if_true]
      push_cast
      ring
    · rw [if_neg hp, ih]
      simp [hp]

theorem recordScore_flat (currentYear : Int) (ql : Str) (ts : List Str)
    (r : NormalizedCitation) :
    recordScore currentYear ql ts r =
      (if ql <:+: lowerStr r.title then (10 : ℝ) else 0)
      + 3 * (ts.countP fun t => containsSub t (lowerStr r.title))
      + (if ql <:+: lowerStr r.abstract then (5 : ℝ) else 0)
      + (ts.countP fun t => containsSub t (lowerStr r.abstract))
      + Real.log (r.citationCount + 1) * 0.5
      + codeYearBonus currentYear r.year
      + (if r.source = semanticScholarName then (0.5 : ℝ) else 0) := by
  unfold recordScore codeYearBonus
  dsimp only
  rw [foldl_if_add, foldl_if_add]
  simp only [containsSub, decide_eq_true_eq]
  cases r.year <;> dsimp only <;> split_ifs <;> ring

theorem recordScore_eq_specScore (currentYear : Int) (q : Str)
    (r : NormalizedCitation) (hcy : 5 < currentYear) :
    recordScore currentYear (lowerStr q) (queryTermsOf (lowerStr q)) r =
      specScore currentYear r q := by
  rw [recordScore_flat]
  unfold specScore codeYearBonus
  have hyear : (match r.year with
      | some y => if y ≠ 0 ∧ currentYear - y ≤ 5 then (3 : ℝ) else 0
      | none => 0) =
      (match r.year with
      | some y => if currentYear - y ≤ 5 then (3 : ℝ) else 0
      | none => 0) := by
    cases hy : r.year with
    | none => rfl
    | some y =>
      dsimp only
      by_cases h0 : y = 0
      · subst h0
        rw [if_neg (by simp), if_neg (by omega)]
      · simp only [ne_eq, h0, not_false_eq_true, true_and]
  rw [hyear]
  ring

/-- C1: rankResults assigns each record, independently, the relevanceScore the
specification formula gives it (specScore: +10 full query in title, +3 per
term in title, +5 full query in abstract, +1 per term in abstract,
ln(citationCount + 1) * 0.5, +3 recency, +0.5 Semantic Scholar, no
normalization): the ranked output is a permutation of the records each paired
with its specScore, and every output score equals the specScore of its
record.  Stated for a wall-clock current year (above year 5), since the
source tests the year bonus through JavaScript truthiness, which could differ
from the formula only for year 0 and a current year at most 5. -/
theorem rank_assigns_spec_score (currentYear : Int) (results : List NormalizedCitation)
    (originalQuery : Str) (hcy : 5 < currentYear) :
    (rankResults currentYear results originalQuery).Perm
      (results.map fun r => ScoredCitation.mk r (specScore currentYear r originalQuery))
    ∧ ∀ s ∈ rankResults currentYear results originalQuery,
        s.relevanceScore = specScore currentYear s.toNormalizedCitation originalQuery := by
  have hmap : (results.map fun result =>
      ScoredCitation.mk result
        (recordScore currentYear (lowerStr originalQuery)
          (queryTermsOf (lowerStr originalQuery)) result)) =
      results.map fun r => ScoredCitation.mk r (specScore currentYear r originalQuery) := by
    apply List.map_congr_left
    intro r _
    rw [recordScore_eq_specScore _ _ _ hcy]
  constructor
  · unfold rankResults
    dsimp only
    rw [hmap]
    exact List.mergeSort_perm _ _
  · intro s hs
    unfold rankResults at hs
    dsimp only at hs
    rw [List.mem_mergeSort, hmap] at hs
    obtain ⟨r, _, rfl⟩ := List.mem_map.mp hs
    rfl

/-- Witness for C1 at the current year 2025, one concrete record and query. -/
theorem rank_assigns_spec_score_witness :
    (rankResults 2025 [recA] wQuery).Perm
      ([recA].map fun r => ScoredCitation.mk r (specScore 2025 r wQuery))
    ∧ ∀ s ∈ rankResults 2025 [recA] wQuery,
        s.relevanceScore = specScore 2025 s.toNormalizedCitation wQuery :=
  rank_assigns_spec_score 2025 [recA] wQuery (by norm_num)

/-- C5 counterexample: for the query "ab" every whitespace-separated chunk has
length at most 2, so the query term list is empty.  Take both records equal
with title "ab": they are identical in abstract, citationCount, year and
source, the first title contains the full lower-cased query, the second title
contains none of the (zero) query terms, yet the first score is not at least
10 above the second — both records score identically. -/
theorem full_title_match_cex :
    lowerStr cexQuery <:+: lowerStr cexRecord.title
    ∧ (∀ t ∈ queryTermsOf (lowerStr cexQuery), ¬ (t <:+: lowerStr cexRecord.title))
    ∧ ¬ (scoreOf 2025 cexQuery cexRecord + 10 ≤ scoreOf 2025 cexQuery cexRecord) := by
  refine ⟨by decide, by decide, ?_⟩
  linarith

/-- C5 amended: add the hypothesis, vacuous except when every query term has
length at most 2, that the second title also does not contain the full
lower-cased query.  Then for identical abstract, citationCount, year and
source, a record whose lower-cased title contains the full lower-cased query
scores at least 10 above one whose title contains neither the full query nor
any query term. -/
theorem full_title_match_scores_10_higher (currentYear : Int) (q : Str)
    (r1 r2 : NormalizedCitation)
    (habs : r1.abstract = r2.abstract) (hcc : r1.citationCount = r2.citationCount)
    (hyr : r1.year = r2.year) (hsrc : r1.source = r2.source)
    (h1 : lowerStr q <:+: lowerStr r1.title)
    (h2 : ∀ t ∈ queryTermsOf (lowerStr q), ¬ (t <:+: lowerStr r2.title))
    (h2q : ¬ (lowerStr q <:+: lowerStr r2.title)) :
    scoreOf currentYear q r2 + 10 ≤ scoreOf currentYear q r1 := by
  unfold scoreOf
  rw [recordScore_flat, recordScore_flat, ← habs, ← hcc, ← hyr, ← hsrc]
  rw [if_pos h1, if_neg h2q]
  have hcount2 : ((queryTermsOf (lowerStr q)).countP
      fun t => containsSub t (lowerStr r2.title)) = 0 := by
    rw [List.countP_eq_zero]
    intro t ht
    simp [containsSub, h2 t ht]
  rw [hcount2]
  have hcount1 : (0 : ℝ) ≤ ((queryTermsOf (lowerStr q)).countP
      fun t => containsSub t (lowerStr r1.title) : ℕ) := Nat.cast_nonneg _
  push_cast
  linarith

/-- Witness for C5 amended: query "machine learning", a title containing it
versus a title containing nothing of it, all other fields equal. -/
theorem full_title_match_scores_10_higher_witness :
    scoreOf 2025 wQuery wTitleMiss + 10 ≤ scoreOf 2025 wQuery wTitleHit :=
  full_title_match_scores_10_higher 2025 wQuery wTitleHit wTitleMiss rfl rfl rfl rfl
    (by decide) (by decide) (by decide)

/-- C6: two records identical except for citation counts 0 versus 1000, with
no title or abstract hits for the query: the 1000-citation record scores
strictly higher, by exactly ln(1001) * 0.5, which is below 4 — never
proportional to the raw difference of 1000. -/
theorem citation_log_damping (currentYear : Int) (q : Str) (r0 r1 : NormalizedCitation)
    (ht : r1.title = r0.title) (ha : r1.abstract = r0.abstract)
    (hy : r1.year = r0.year) (hs : r1.source = r0.source)
    (hc0 : r0.citationCount = 0) (hc1 : r1.citationCount = 1000)
    (hqt : ¬ (lowerStr q <:+: lowerStr r0.title))
    (_ht2 : ∀ t ∈ queryTermsOf (lowerStr q), ¬ (t <:+: lowerStr r0.title))
    (hqa : ¬ (lowerStr q <:+: lowerStr r0.abstract))
    (_ha2 : ∀ t ∈ queryTermsOf (lowerStr q), ¬ (t <:+: lowerStr r0.abstract)) :
    scoreOf currentYear q r1 - scoreOf currentYear q r0 = Real.log 1001 * 0.5
    ∧ scoreOf currentYear q r0 < scoreOf currentYear q r1
    ∧ scoreOf currentYear q r1 - scoreOf currentYear q r0 < 4 := by
  have hdiff : scoreOf currentYear q r1 - scoreOf currentYear q r0 =
      Real.log 1001 * 0.5 := by
    unfold scoreOf
    rw [recordScore_flat, recordScore_flat, ht, ha, hy, hs, hc0, hc1]
    rw [if_neg hqt, if_neg hqa]
    push_cast
    rw [show ((0 : ℝ) + 1) = 1 from by norm_num, Real.log_one,
      show ((1000 : ℝ) + 1) = 1001 from by norm_num]
    ring
  have hpos : 0 < Real.log 1001 := Real.log_pos (by norm_num)
  have hlt : Real.log 1001 < 8 := by
    rw [Real.log_lt_iff_lt_exp (by norm_num)]
    have h27 : (2.7 : ℝ) < Real.exp 1 := by
      have h9 := Real.exp_one_gt_d9
      linarith
    have hexp8 : Real.exp 8 = Real.exp 1 ^ (8 : ℕ) := by
      rw [← Real.exp_nat_mul]
      norm_num
    have hpow : (2.7 : ℝ) ^ (8 : ℕ) < Real.exp 1 ^ (8 : ℕ) :=
      pow_lt_pow_left₀ h27 (by norm_num) (by norm_num)
    rw [hexp8]
    calc (1001 : ℝ) < (2.7 : ℝ) ^ (8 : ℕ) := by norm_num
    _ < Real.exp 1 ^ (8 : ℕ) := hpow
  refine ⟨hdiff, ?_, ?_⟩
  · nlinarith
  · rw [hdiff]
    nlinarith

/-- Witness for C6: the specification scenario, query "machine learning
ethics", two records with citation counts 0 and 1000 and no lexical hits. -/
theorem citation_log_damping_witness :
    scoreOf 2025 ethicsQuery highCite - scoreOf 2025 ethicsQuery lowCite =
      Real.log 1001 * 0.5
    ∧ scoreOf 2025 ethicsQuery lowCite < scoreOf 2025 ethicsQuery highCite
    ∧ scoreOf 2025 ethicsQuery highCite - scoreOf 2025 ethicsQuery lowCite < 4 :=
  citation_log_damping 2025 ethicsQuery lowCite highCite rfl rfl rfl rfl rfl rfl
    (by decide) (by decide) (by decide) (by decide)

/-! Helper lemmas about the sort. -/

theorem scoreLE_trans (a b c : ScoredCitation) (hab : scoreLE a b) (hbc : scoreLE b c) :
    scoreLE a c := by
  simp only [scoreLE, decide_eq_true_eq] at hab hbc ⊢
  exact le_trans hbc hab

theorem scoreLE_total (a b : ScoredCitation) : scoreLE a b || scoreLE b a := by
  simp only [scoreLE, Bool.or_eq_true, decide_eq_true_eq]
  exact le_total _ _

theorem rankResults_eq (currentYear : Int) (results : List NormalizedCitation) (q : Str) :
    rankResults currentYear results q =
      (scoredResults currentYear results q).mergeSort scoreLE := rfl

theorem length_rankResults (currentYear : Int) (results : List NormalizedCitation)
    (q : Str) : (rankResults currentYear results q).length = results.length := by
  rw [rankResults_eq, List.length_mergeSort]
  simp [scoredResults]

/-- C7: rankResults is sorted by non-increasing relevanceScore, is a
permutation of the scored input records, keeps tied records in their input
order (stability of the merge sort), and is deterministic: the same input,
query and current year reproduce the identical output. -/
theorem rank_sorted_stable_deterministic (currentYear : Int)
    (results : List NormalizedCitation) (q : Str) :
    (rankResults currentYear results q).Pairwise
      (fun a b => b.relevanceScore ≤ a.relevanceScore)
    ∧ (rankResults currentYear results q).Perm (scoredResults currentYear results q)
    ∧ (∀ a b : ScoredCitation,
        ([a, b] : List ScoredCitation).Sublist (scoredResults currentYear results q) →
        a.relevanceScore = b.relevanceScore →
        ([a, b] : List ScoredCitation).Sublist (rankResults currentYear results q))
    ∧ rankResults currentYear results q = rankResults currentYear results q := by
  refine ⟨?_, ?_, ?_, rfl⟩
  · have h := @List.sorted_mergeSort _ scoreLE scoreLE_trans scoreLE_total
      (scoredResults currentYear results q)
    rw [← rankResults_eq] at h
    exact h.imp (fun hab => by
      simpa [scoreLE, decide_eq_true_eq] using hab)
  · rw [rankResults_eq]
    exact List.mergeSort_perm _ _
  · intro a b hsub heq
    rw [rankResults_eq]
    refine List.pair_sublist_mergeSort scoreLE_trans scoreLE_total ?_ hsub
    simp [scoreLE, heq]

/-- Witness for C7 at a concrete year, record list and query, together with a
concrete tied pair (the same record listed twice) kept in input order. -/
theorem rank_sorted_stable_deterministic_witness :
    ((rankResults 2025 [recA, recA] wQuery).Pairwise
      (fun a b => b.relevanceScore ≤ a.relevanceScore)
    ∧ (rankResults 2025 [recA, recA] wQuery).Perm (scoredResults 2025 [recA, recA] wQuery)
    ∧ (∀ a b : ScoredCitation,
        ([a, b] : List ScoredCitation).Sublist (scoredResults 2025 [recA, recA] wQuery) →
        a.relevanceScore = b.relevanceScore →
        ([a, b] : List ScoredCitation).Sublist (rankResults 2025 [recA, recA] wQuery))
    ∧ rankResults 2025 [recA, recA] wQuery = rankResults 2025 [recA, recA] wQuery)
    ∧ ([ScoredCitation.mk recA (scoreOf 2025 wQuery recA),
        ScoredCitation.mk recA (scoreOf 2025 wQuery recA)] : List ScoredCitation).Sublist
        (rankResults 2025 [recA, recA] wQuery) :=
  ⟨rank_sorted_stable_deterministic 2025 [recA, recA] wQuery,
    (rank_sorted_stable_deterministic 2025 [recA, recA] wQuery).2.2.1 _ _
      (List.Sublist.refl _) rfl⟩

/-! Handler theorems. -/

theorem rankResults_ne_nil (currentYear : Int) (results : List NormalizedCitation)
    (q : Str) (h : results ≠ []) : rankResults currentYear results q ≠ [] := by
  intro hnil
  apply h
  have hlen := length_rankResults currentYear results q
  rw [hnil] at hlen
  exact List.length_eq_zero.mp hlen.symm

/-- C8: a missing or empty query is rejected with the 400-class response at
once, and no pipeline stage runs: no expansion attempt, no provider search,
no deduplication or ranking, and no history write. -/
theorem empty_query_rejected (currentYear : Int) (query userId : Option Str)
    (hasKey : Bool) (expOut : Option Str) (s c : AdapterOutcome) (hist : Bool)
    (h : query = none ∨ query = some []) :
    handleRequest currentYear query userId hasKey expOut s c hist =
      (HandlerResponse.badRequest, PipelineEffects.mk false false false false) := by
  rcases h with h | h <;> subst h <;> simp [handleRequest]

/-- Witness for C8: the absent query at one concrete set of inputs. -/
theorem empty_query_rejected_witness :
    handleRequest 2025 none none false none .rejected .rejected false =
      (HandlerResponse.badRequest, PipelineEffects.mk false false false false) :=
  empty_query_rejected 2025 none none false none .rejected .rejected false (Or.inl rfl)

/-- C4: with a valid query, when every adapter fails or returns the empty
list the handler answers with the 404-class notFound response carrying the
original and expanded query strings; and no run of the handler ever produces
the 200-class ok response with an empty results array. -/
theorem total_failure_distinct_404 (currentYear : Int) :
    (∀ (q : Str) (userId : Option Str) (hasKey : Bool) (expOut : Option Str)
        (s c : AdapterOutcome) (hist : Bool), q ≠ [] →
        s.collected = [] → c.collected = [] →
        (handleRequest currentYear (some q) userId hasKey expOut s c hist).1 =
          HandlerResponse.notFound q (expandedQueryOf hasKey expOut q))
    ∧ ∀ (query userId : Option Str) (hasKey : Bool) (expOut : Option Str)
        (s c : AdapterOutcome) (hist : Bool) (q e : Str) (n : Nat),
        (handleRequest currentYear query userId hasKey expOut s c hist).1 ≠
          HandlerResponse.ok q e [] n := by
  constructor
  · intro q userId hasKey expOut s c hist hq hs hc
    simp [handleRequest, hq, collectResults, hs, hc]
  · intro query userId hasKey expOut s c hist q e n
    cases query with
    | none => simp [handleRequest]
    | some q0 =>
      by_cases hq : q0 = []
      · simp [handleRequest, hq]
      · by_cases hall : collectResults s c = []
        · simp [handleRequest, hq, hall]
        · have htake : (rankResults currentYear
              (deduplicateResults (collectResults s c)) q0).take 10 ≠ [] := by
            rw [ne_eq, List.take_eq_nil_iff]
            push_neg
            exact ⟨by norm_num,
              rankResults_ne_nil currentYear _ q0 (deduplicateResults_ne_nil _ hall)⟩
          simp only [handleRequest, if_neg hq, if_neg hall]
          rw [ne_eq, HandlerResponse.ok.injEq]
          rintro ⟨-, -, hres, -⟩
          exact htake hres

/-- Witness for C4: both adapters rejected yields notFound with the query
strings; a run with one non-empty adapter cannot be the empty ok response. -/
theorem total_failure_distinct_404_witness :
    (handleRequest 2025 (some testQuery) none false none .rejected .rejected false).1 =
      HandlerResponse.notFound testQuery (expandedQueryOf false none testQuery)
    ∧ (handleRequest 2025 (some testQuery) none false none
        (.fulfilled [recA]) .rejected false).1 ≠
      HandlerResponse.ok testQuery testQuery [] 1 :=
  ⟨(total_failure_distinct_404 2025).1 testQuery none false none .rejected .rejected false
      (by decide) rfl rfl,
    (total_failure_distinct_404 2025).2 (some testQuery) none false none
      (.fulfilled [recA]) .rejected false testQuery testQuery 1⟩

/-- C9: whenever the handler returns the 200-class ok response, the results
array is non-empty and totalFound is at least 1; totalFound equals the number
of deduplicated records, results has length min(totalFound, 10), and
deduplication never maps a non-empty list to an empty one. -/
theorem success_nonempty (currentYear : Int) (query userId : Option Str)
    (hasKey : Bool) (expOut : Option Str) (s c : AdapterOutcome) (hist : Bool)
    (q e : Str) (res : List ScoredCitation) (total : Nat)
    (h : (handleRequest currentYear query userId hasKey expOut s c hist).1 =
      HandlerResponse.ok q e res total) :
    res ≠ [] ∧ 1 ≤ total
    ∧ total = (deduplicateResults (collectResults s c)).length
    ∧ res.length = min total 10
    ∧ ∀ rs : List NormalizedCitation, rs ≠ [] → deduplicateResults rs ≠ [] := by
  cases query with
  | none => simp [handleRequest] at h
  | some q0 =>
    by_cases hq : q0 = []
    · simp [handleRequest, hq] at h
    · by_cases hall : collectResults s c = []
      · simp [handleRequest, hq, hall] at h
      · simp only [handleRequest, if_neg hq, if_neg hall] at h
        rw [HandlerResponse.ok.injEq] at h
        obtain ⟨-, -, hres, htot⟩ := h
        have hded := deduplicateResults_ne_nil _ hall
        have hrank := rankResults_ne_nil currentYear
          (deduplicateResults (collectResults s c)) q0 hded
        refine ⟨?_, ?_, ?_, ?_, fun rs hrs => deduplicateResults_ne_nil rs hrs⟩
        · rw [← hres, ne_eq, List.take_eq_nil_iff]
          push_neg
          exact ⟨by norm_num, hrank⟩
        · rw [← htot, length_rankResults]
          have := List.length_eq_zero.not.mpr hded
          omega
        · rw [← htot, length_rankResults]
        · rw [← hres, ← htot, List.length_take, length_rankResults,
            Nat.min_comm]

/-- Witness for C9: one fulfilled adapter with one record reaches the ok
response with one result. -/
theorem success_nonempty_witness :
    (rankResults 2025 (deduplicateResults
        (collectResults (.fulfilled [recA]) .rejected)) testQuery).take 10 ≠ []
    ∧ 1 ≤ (rankResults 2025 (deduplicateResults
        (collectResults (.fulfilled [recA]) .rejected)) testQuery).length
    ∧ (rankResults 2025 (deduplicateResults
        (collectResults (.fulfilled [recA]) .rejected)) testQuery).length =
      (deduplicateResults (collectResults (.fulfilled [recA]) .rejected)).length
    ∧ ((rankResults 2025 (deduplicateResults
        (collectResults (.fulfilled [recA]) .rejected)) testQuery).take 10).length =
      min (rankResults 2025 (deduplicateResults
        (collectResults (.fulfilled [recA]) .rejected)) testQuery).length 10
    ∧ ∀ rs : List NormalizedCitation, rs ≠ [] → deduplicateResults rs ≠ [] :=
  success_nonempty 2025 (some testQuery) none false none (.fulfilled [recA]) .rejected
    false testQuery testQuery _ _ rfl

/-- C10: the aggregated collection lists every Semantic Scholar record before
every CrossRef record; hence whenever a CrossRef record shares its identity
key with some Semantic Scholar record, a Semantic Scholar record with that
key survives deduplication, and the CrossRef record (not itself among the
Semantic Scholar records) is dropped. -/
theorem semantic_scholar_precedence (s c : AdapterOutcome) :
    collectResults s c = s.collected ++ c.collected
    ∧ ∀ B ∈ c.collected, (∃ A ∈ s.collected, dedupKey A = dedupKey B) →
        (∃ A ∈ s.collected, dedupKey A = dedupKey B ∧
          A ∈ deduplicateResults (collectResults s c))
        ∧ (B ∉ s.collected → B ∉ deduplicateResults (collectResults s c)) := by
  refine ⟨rfl, ?_⟩
  intro B _ hex
  constructor
  · obtain ⟨A, hA, hAk⟩ := exists_key_mem_dedupAux [] s.collected hex (by simp)
    refine ⟨A, (dedupAux_sublist [] s.collected).subset hA, hAk, ?_⟩
    show A ∈ dedupAux [] (s.collected ++ c.collected)
    rw [dedupAux_append]
    exact List.mem_append_left _ hA
  · intro hBs hBmem
    have hBmem2 : B ∈ dedupAux [] (s.collected ++ c.collected) := hBmem
    rw [dedupAux_append] at hBmem2
    rcases List.mem_append.mp hBmem2 with h1 | h1
    · exact hBs ((dedupAux_sublist [] s.collected).subset h1)
    · apply dedupKey_notMem_seen (seenAfter [] s.collected) c.collected h1
      rw [mem_seenAfter]
      exact Or.inr hex

/-- Witness for C10: one record per provider, sharing DOI 10.1/x: the
Semantic Scholar record survives and the CrossRef record is dropped. -/
theorem semantic_scholar_precedence_witness :
    collectResults (.fulfilled [recDoiFoo]) (.fulfilled [recDoiBar]) =
      (AdapterOutcome.fulfilled [recDoiFoo]).collected ++
        (AdapterOutcome.fulfilled [recDoiBar]).collected
    ∧ ((∃ A ∈ (AdapterOutcome.fulfilled [recDoiFoo]).collected,
          dedupKey A = dedupKey recDoiBar ∧
          A ∈ deduplicateResults
            (collectResults (.fulfilled [recDoiFoo]) (.fulfilled [recDoiBar])))
        ∧ (recDoiBar ∉ (AdapterOutcome.fulfilled [recDoiFoo]).collected →
          recDoiBar ∉ deduplicateResults
            (collectResults (.fulfilled [recDoiFoo]) (.fulfilled [recDoiBar])))) :=
  ⟨(semantic_scholar_precedence (.fulfilled [recDoiFoo]) (.fulfilled [recDoiBar])).1,
    (semantic_scholar_precedence (.fulfilled [recDoiFoo]) (.fulfilled [recDoiBar])).2
      recDoiBar (by decide) ⟨recDoiFoo, by decide, by decide⟩⟩

end CitationCompass
